import Mathlib

/-!
Verification of the virtualization core of `react-window` (`src/VariableSizeList.js`).

Modelling conventions:
* JavaScript numbers are modelled as exact integers (`Int`); sizes and offsets in the
  claims are integral.  The single operation where fractional values arise,
  `Math.round(minOffset + (maxOffset - minOffset) / 2)`, is modelled over `ℚ` with
  `jsRound x = ⌊x + 1/2⌋`, which agrees with JavaScript `Math.round` on all rationals.
* The mutable `instanceProps` object is threaded explicitly: every operation that may
  mutate the metadata map returns the updated `InstanceProps`.
* A JavaScript property access on a missing map entry (`itemMetadataMap[i]` being
  `undefined`, followed by `.offset` / `.size`) throws; this is modelled by `Option`,
  with `none` for the thrown `TypeError`.
-/

namespace ReactWindow

/-- One entry of `itemMetadataMap`: `{ offset, size }`. -/
structure ItemMetadata where
  offset : Int
  size : Int
deriving DecidableEq, Repr

/-- The sparse metadata map, keyed by (possibly negative) JS number index. -/
abbrev MetaMap := Int → Option ItemMetadata

/-- Scroll direction (`props.direction`). -/
inductive Direction
  | vertical
  | horizontal
deriving DecidableEq, Repr

/-- Alignment argument of `getOffsetForIndexAndAlignment`. -/
inductive ScrollToAlign
  | auto
  | start
  | center
  | end_
deriving DecidableEq, Repr

/-- The props consulted by the variable-size strategy: `itemCount`, the axis sizes,
`direction` and the `itemSize` size getter. -/
structure Props where
  itemCount : Nat
  height : Int
  width : Int
  direction : Direction
  itemSize : Int → Int

/-- The `instanceProps` record of `VariableSizeList`. -/
structure InstanceProps where
  itemMetadataMap : MetaMap
  estimatedItemSize : Int
  lastMeasuredIndex : Int

/-- Model of `initInstanceProps`: fresh state `{ itemMetadataMap: {}, estimatedItemSize, lastMeasuredIndex: -1 }`. -/
def initInstanceProps (estimatedItemSize : Int) : InstanceProps :=
  { itemMetadataMap := fun _ => none
    estimatedItemSize := estimatedItemSize
    lastMeasuredIndex := -1 }

/-- The body of the measuring `for` loop of `getItemMetadata`: starting at index `i`
with running offset `offset`, store `n` consecutive entries `{offset, size := itemSize i}`,
advancing the running offset. -/
def fillRange (itemSize : Int → Int) (map : MetaMap) (i : Int) (offset : Int) :
    Nat → MetaMap
  | 0 => map
  | n + 1 =>
      fillRange itemSize
        (fun j => if j = i then some ⟨offset, itemSize i⟩ else map j)
        (i + 1) (offset + itemSize i) n

/-- Model of `getItemMetadata(props, index, instanceProps)`: return the cached `{offset, size}`
when `index ≤ lastMeasuredIndex`; otherwise measure forward from `lastMeasuredIndex + 1`
through `index`, update the map and the watermark.  `none` models the `TypeError`
thrown on a missing map entry. -/
def getItemMetadata (props : Props) (index : Int) (s : InstanceProps) :
    Option (ItemMetadata × InstanceProps) :=
  if index > s.lastMeasuredIndex then
    match
      (if s.lastMeasuredIndex ≥ 0 then
        (s.itemMetadataMap s.lastMeasuredIndex).map (fun m => m.offset + m.size)
      else some 0) with
    | none => none
    | some offset0 =>
        let map' := fillRange props.itemSize s.itemMetadataMap
          (s.lastMeasuredIndex + 1) offset0 (index - s.lastMeasuredIndex).toNat
        match map' index with
        | none => none
        | some m =>
            some (m, { s with itemMetadataMap := map', lastMeasuredIndex := index })
  else
    match s.itemMetadataMap index with
    | none => none
    | some m => some (m, s)

/-- Model of `resetAfterIndex(index)` (instance method installed by `initInstanceProps`):
lower the watermark to `min(lastMeasuredIndex, index - 1)`, leaving the map alone. -/
def resetAfterIndex (index : Int) (s : InstanceProps) : InstanceProps :=
  { s with lastMeasuredIndex := min s.lastMeasuredIndex (index - 1) }

/-- The cumulative offset of item `n` in the layout whose item sizes are `σ`:
the sum of sizes of items `0 .. n-1`. -/
def layoutOffset (σ : Nat → Int) : Nat → Int
  | 0 => 0
  | n + 1 => layoutOffset σ n + σ n

/-- Model of `findNearestItemBinarySearch(props, instanceProps, high, low, offset)`: binary
search over `[low, high]` comparing `getItemMetadata(middle).offset` with `offset`;
on exhaustion return `low - 1` (clamped to 0).  Note `middle = low + ⌊(high-low)/2⌋`
uses `Int` division, which on `high ≥ low` equals JS `Math.floor`. -/
def findNearestItemBinarySearch (props : Props) (s : InstanceProps)
    (high low : Int) (offset : Int) : Option (Int × InstanceProps) :=
  if low ≤ high then
    let middle := low + (high - low) / 2
    match getItemMetadata props middle s with
    | none => none
    | some (m, s') =>
        if m.offset = offset then some (middle, s')
        else if m.offset < offset then
          findNearestItemBinarySearch props s' high (middle + 1) offset
        else
          findNearestItemBinarySearch props s' (middle - 1) low offset
  else if low > 0 then some (low - 1, s) else some (0, s)
  termination_by (high + 1 - low).toNat
  decreasing_by
  all_goals omega

/-- The `while` loop of `findNearestItemExponentialSearch`: starting from `index` with
doubling `interval`, probe forward (measuring on demand) while
`index < itemCount && getItemMetadata(index).offset < offset`.  The hypothesis
`hI : 0 < interval` records that the interval, initially 1 and only doubled,
stays positive (this is what makes the loop terminate). -/
def exponentialProbe (props : Props) (offset : Int) (index interval : Int)
    (hI : 0 < interval) (s : InstanceProps) : Option (Int × InstanceProps) :=
  if index < (props.itemCount : Int) then
    match getItemMetadata props index s with
    | none => none
    | some (m, s') =>
        if m.offset < offset then
          exponentialProbe props offset (index + interval) (interval * 2)
            (by omega) s'
        else some (index, s')
  else some (index, s)
  termination_by ((props.itemCount : Int) + 1 - index).toNat
  decreasing_by omega

/-- Model of `findNearestItemExponentialSearch(props, instanceProps, index, offset)`: exponential
probe with doubling interval, then binary search the bracket
`[⌊index/2⌋, min(index, itemCount - 1)]`. -/
def findNearestItemExponentialSearch (props : Props) (s : InstanceProps)
    (index offset : Int) : Option (Int × InstanceProps) :=
  match exponentialProbe props offset index 1 one_pos s with
  | none => none
  | some (idx, s') =>
      findNearestItemBinarySearch props s'
        (min idx ((props.itemCount : Int) - 1)) (idx / 2) offset

/-- Model of `findNearestItem(props, instanceProps, offset)`: dispatch to the binary search over
the measured range when `lastMeasuredItemOffset ≥ offset`, else to the exponential
search starting at `lastMeasuredIndex`. -/
def findNearestItem (props : Props) (s : InstanceProps) (offset : Int) :
    Option (Int × InstanceProps) :=
  match
    (if s.lastMeasuredIndex > 0 then
      (s.itemMetadataMap s.lastMeasuredIndex).map (fun m => m.offset)
    else some 0) with
  | none => none
  | some lastMeasuredItemOffset =>
      if lastMeasuredItemOffset ≥ offset then
        findNearestItemBinarySearch props s s.lastMeasuredIndex 0 offset
      else
        findNearestItemExponentialSearch props s s.lastMeasuredIndex offset

/-- Model of `getEstimatedTotalSize(props, instanceProps)`:
`measuredTotal + (itemCount - lastMeasuredIndex - 1) * estimatedItemSize` where
`measuredTotal` is `offset + size` of the last measured item (0 when nothing measured). -/
def getEstimatedTotalSize (props : Props) (s : InstanceProps) : Option Int :=
  match
    (if s.lastMeasuredIndex ≥ 0 then
      (s.itemMetadataMap s.lastMeasuredIndex).map (fun m => m.offset + m.size)
    else some 0) with
  | none => none
  | some totalSizeOfMeasuredItems =>
      let numUnmeasuredItems : Int := (props.itemCount : Int) - s.lastMeasuredIndex - 1
      some (totalSizeOfMeasuredItems + numUnmeasuredItems * s.estimatedItemSize)

/-- The viewport size along the scroll axis:
`direction === 'horizontal' ? width : height`. -/
def axisSize (props : Props) : Int :=
  match props.direction with
  | .horizontal => props.width
  | .vertical => props.height

/-- JavaScript `Math.round` on rationals: round half toward positive infinity. -/
def jsRound (x : ℚ) : Int := ⌊x + 1 / 2⌋

/-- Model of `getOffsetForIndexAndAlignment(props, index, align, scrollOffset, instanceProps)`:
measure `index`, compute the estimated total size (after the measurement), form
`maxOffset` / `minOffset` and dispatch on the alignment. -/
def getOffsetForIndexAndAlignment (props : Props) (index : Int)
    (align : ScrollToAlign) (scrollOffset : Int) (s : InstanceProps) :
    Option (Int × InstanceProps) :=
  match getItemMetadata props index s with
  | none => none
  | some (itemMetadata, s') =>
      match getEstimatedTotalSize props s' with
      | none => none
      | some estimatedTotalSize =>
          let size := axisSize props
          let maxOffset := min (estimatedTotalSize - size) itemMetadata.offset
          let minOffset := max 0 (itemMetadata.offset - size + itemMetadata.size)
          match align with
          | .start => some (maxOffset, s')
          | .end_ => some (minOffset, s')
          | .center =>
              some (jsRound ((minOffset : ℚ) + ((maxOffset : ℚ) - (minOffset : ℚ)) / 2), s')
          | .auto =>
              if minOffset ≤ scrollOffset ∧ scrollOffset ≤ maxOffset then
                some (scrollOffset, s')
              else if scrollOffset - minOffset < maxOffset - scrollOffset then
                some (minOffset, s')
              else
                some (maxOffset, s')

/-- The `while` loop of `getStopIndexForStartIndex`: while
`stopIndex < itemCount - 1 && offset < maxOffset`, increment `stopIndex` and add the
(measured on demand) size of the new item. -/
def stopIndexLoop (props : Props) (maxOffset : Int) (stopIndex offset : Int)
    (s : InstanceProps) : Option (Int × InstanceProps) :=
  if stopIndex < (props.itemCount : Int) - 1 ∧ offset < maxOffset then
    match getItemMetadata props (stopIndex + 1) s with
    | none => none
    | some (m, s') => stopIndexLoop props maxOffset (stopIndex + 1) (offset + m.size) s'
  else some (stopIndex, s)
  termination_by ((props.itemCount : Int) - 1 - stopIndex).toNat
  decreasing_by omega

/-- Model of `getStopIndexForStartIndex(props, startIndex, scrollOffset, instanceProps)`. -/
def getStopIndexForStartIndex (props : Props) (startIndex scrollOffset : Int)
    (s : InstanceProps) : Option (Int × InstanceProps) :=
  match getItemMetadata props startIndex s with
  | none => none
  | some (itemMetadata, s') =>
      stopIndexLoop props (scrollOffset + axisSize props)
        startIndex (itemMetadata.offset + itemMetadata.size) s'

/-- Model of `getItemOffset(props, index, instanceProps)`: measures on demand. -/
def getItemOffset (props : Props) (index : Int) (s : InstanceProps) :
    Option (Int × InstanceProps) :=
  (getItemMetadata props index s).map (fun p => (p.1.offset, p.2))

/-- Model of `getItemSize(props, index, instanceProps)`: reads
`instanceProps.itemMetadataMap[index].size` directly, with no measurement;
`none` models the `TypeError` on a missing entry. -/
def getItemSize (index : Int) (s : InstanceProps) : Option Int :=
  (s.itemMetadataMap index).map (fun m => m.size)

/-! ## Specification-side layout and state predicates -/

/-- The sum of the sizes stored in the map for items `0 .. n-1` (missing entries count
as 0; in the states we consider they are always present). -/
def sumStoredSizes (map : MetaMap) : Nat → Int
  | 0 => 0
  | n + 1 => sumStoredSizes map n + (((map n).getD ⟨0, 0⟩).size)

/-- Predicate `Coherent σ props s`: the state `s` is faithful to the item layout whose exact
sizes are `σ`: every measured entry stores the cumulative layout offset and the layout
size, and the current size getter agrees with `σ` on all not-yet-measured indices. -/
structure Coherent (σ : Nat → Int) (props : Props) (s : InstanceProps) : Prop where
  lmi_lb : -1 ≤ s.lastMeasuredIndex
  stored : ∀ n : Nat, (n : Int) ≤ s.lastMeasuredIndex →
    s.itemMetadataMap n = some ⟨layoutOffset σ n, σ n⟩
  future : ∀ n : Nat, s.lastMeasuredIndex < (n : Int) → props.itemSize n = σ n

/-- The state after one `getItemMetadata` call (unchanged when the call throws;
a throwing call reads the missing entry before performing any mutation). -/
def measureStep (props : Props) (index : Int) (s : InstanceProps) : InstanceProps :=
  match getItemMetadata props index s with
  | some (_, s') => s'
  | none => s

/-- States reachable from a fresh instance by any interleaving of measuring calls
(with positive size getters) and `resetAfterIndex` calls.  Every exported operation
(`getItemMetadata`, `findIndexForOffset`, `findStopIndex`, `getOffsetForAlignment`)
mutates the state only through `getItemMetadata`, so every state such an operation can
produce is reachable in this relation. -/
inductive Reachable : InstanceProps → Prop
  | init (est : Int) : Reachable (initInstanceProps est)
  | measure {s : InstanceProps} (props : Props)
      (hpos : ∀ i : Int, 0 < props.itemSize i) (index : Int) (hidx : 0 ≤ index) :
      Reachable s → Reachable (measureStep props index s)
  | reset {s : InstanceProps} (index : Int) (hidx : 0 ≤ index) :
      Reachable s → Reachable (resetAfterIndex index s)

/-- States reachable by measuring alone (no invalidation). -/
inductive MeasureReachable : InstanceProps → Prop
  | init (est : Int) : MeasureReachable (initInstanceProps est)
  | measure {s : InstanceProps} (props : Props) (index : Int) (hidx : 0 ≤ index) :
      MeasureReachable s → MeasureReachable (measureStep props index s)

/-! ## Layout lemmas -/

theorem layoutOffset_le_layoutOffset (σ : Nat → Int) (hσ : ∀ n, 0 < σ n)
    {a b : Nat} (h : a ≤ b) : layoutOffset σ a ≤ layoutOffset σ b := by
  induction b with
  | zero => simp_all
  | succ b ih =>
      rcases Nat.lt_or_ge a (b + 1) with h' | h'
      · have := ih (by omega)
        have := hσ b
        simp only [layoutOffset]
        omega
      · have : a = b + 1 := by omega
        simp [this]

theorem layoutOffset_lt_layoutOffset (σ : Nat → Int) (hσ : ∀ n, 0 < σ n)
    {a b : Nat} (h : a < b) : layoutOffset σ a < layoutOffset σ b := by
  have h1 : layoutOffset σ a ≤ layoutOffset σ (b - 1) :=
    layoutOffset_le_layoutOffset σ hσ (by omega)
  have h2 : b - 1 + 1 = b := by omega
  have h3 : layoutOffset σ (b - 1 + 1) = layoutOffset σ (b - 1) + σ (b - 1) := rfl
  have := hσ (b - 1)
  rw [h2] at h3
  omega

theorem layoutOffset_nonneg (σ : Nat → Int) (hσ : ∀ n, 0 < σ n) (n : Nat) :
    0 ≤ layoutOffset σ n := by
  have : layoutOffset σ 0 ≤ layoutOffset σ n :=
    layoutOffset_le_layoutOffset σ hσ (Nat.zero_le n)
  simpa [layoutOffset] using this

/-- The index containing a given offset is unique. -/
theorem layout_bracket_unique (σ : Nat → Int) (hσ : ∀ n, 0 < σ n) {o : Int}
    {i j : Nat} (hi : layoutOffset σ i ≤ o ∧ o < layoutOffset σ (i + 1))
    (hj : layoutOffset σ j ≤ o ∧ o < layoutOffset σ (j + 1)) : i = j := by
  by_contra hne
  rcases Nat.lt_or_ge i j with h | h
  · have : layoutOffset σ (i + 1) ≤ layoutOffset σ j :=
      layoutOffset_le_layoutOffset σ hσ (by omega)
    omega
  · have hji : j < i := by omega
    have : layoutOffset σ (j + 1) ≤ layoutOffset σ i :=
      layoutOffset_le_layoutOffset σ hσ (by omega)
    omega

/-! ## `fillRange` lemmas -/

theorem fillRange_eq_outside (itemSize : Int → Int) (n : Nat) (map : MetaMap)
    (i offset : Int) (j : Int) (hj : j < i ∨ i + n ≤ j) :
    fillRange itemSize map i offset n j = map j := by
  induction n generalizing map i offset with
  | zero => rfl
  | succ n ih =>
      have hji : j ≠ i := by omega
      simp only [fillRange]
      rw [ih]
      · simp [hji]
      · push_cast at hj ⊢
        omega

theorem fillRange_eq_inside (σ : Nat → Int) (itemSize : Int → Int) (n : Nat)
    (map : MetaMap) (i : Int) (hi : 0 ≤ i)
    (hagree : ∀ k : Nat, i ≤ (k : Int) → (k : Int) < i + n → itemSize k = σ k)
    (j : Int) (hij : i ≤ j) (hjn : j < i + n) :
    fillRange itemSize map i (layoutOffset σ i.toNat) n j =
      some ⟨layoutOffset σ j.toNat, σ j.toNat⟩ := by
  induction n generalizing map i with
  | zero => omega
  | succ n ih =>
      simp only [fillRange]
      rcases eq_or_lt_of_le hij with heq | hlt
      · subst heq
        rw [fillRange_eq_outside itemSize n _ (i + 1)
          (layoutOffset σ i.toNat + itemSize i) i (Or.inl (by omega))]
        have hagreei : itemSize i = σ i.toNat := by
          have h := hagree i.toNat (by omega) (by push_cast; omega)
          rwa [Int.toNat_of_nonneg hi] at h
        simp [hagreei]
      · have hstep : layoutOffset σ i.toNat + itemSize i = layoutOffset σ (i + 1).toNat := by
          have h1 : (i + 1).toNat = i.toNat + 1 := by omega
          have h2 : itemSize i = σ i.toNat := by
            have h := hagree i.toNat (by omega) (by push_cast; omega)
            rwa [Int.toNat_of_nonneg hi] at h
          rw [h1, h2]
          rfl
        rw [hstep]
        exact ih _ (i + 1) (by omega)
          (fun k hk1 hk2 => hagree k (by omega) (by push_cast at hk2 ⊢; omega))
          (by omega) (by push_cast at hjn ⊢; omega)

/-! ## The central lemma: `getItemMetadata` materializes the layout -/

theorem getItemMetadata_coherent (σ : Nat → Int) (props : Props) {s : InstanceProps}
    (hc : Coherent σ props s) {index : Int} (hidx : 0 ≤ index) :
    ∃ s', getItemMetadata props index s
        = some (⟨layoutOffset σ index.toNat, σ index.toNat⟩, s')
      ∧ Coherent σ props s'
      ∧ s'.lastMeasuredIndex = max s.lastMeasuredIndex index
      ∧ s'.estimatedItemSize = s.estimatedItemSize
      ∧ (∀ j : Int, j < s.lastMeasuredIndex + 1 ∨ index < j →
          s'.itemMetadataMap j = s.itemMetadataMap j) := by
  by_cases hgt : index > s.lastMeasuredIndex
  · have hoff0 : (if s.lastMeasuredIndex ≥ 0 then
        (s.itemMetadataMap s.lastMeasuredIndex).map (fun m => m.offset + m.size)
      else some 0) = some (layoutOffset σ (s.lastMeasuredIndex + 1).toNat) := by
      by_cases hl : s.lastMeasuredIndex ≥ 0
      · have hstored := hc.stored s.lastMeasuredIndex.toNat (by omega)
        rw [Int.toNat_of_nonneg hl] at hstored
        have h1 : (s.lastMeasuredIndex + 1).toNat = s.lastMeasuredIndex.toNat + 1 := by
          omega
        rw [if_pos hl, hstored, h1]
        rfl
      · have hl' : s.lastMeasuredIndex = -1 := by have := hc.lmi_lb; omega
        rw [if_neg hl, hl']
        rfl
    have hagree : ∀ k : Nat, s.lastMeasuredIndex + 1 ≤ (k : Int) →
        (k : Int) < s.lastMeasuredIndex + 1 + ((index - s.lastMeasuredIndex).toNat : Int) →
        props.itemSize k = σ k := fun k hk1 _ => hc.future k (by omega)
    have hinside := fillRange_eq_inside σ props.itemSize
      (index - s.lastMeasuredIndex).toNat s.itemMetadataMap
      (s.lastMeasuredIndex + 1) (by have := hc.lmi_lb; omega) hagree
      index (by omega) (by omega)
    refine ⟨{ s with
        itemMetadataMap := fillRange props.itemSize s.itemMetadataMap
          (s.lastMeasuredIndex + 1) (layoutOffset σ (s.lastMeasuredIndex + 1).toNat)
          (index - s.lastMeasuredIndex).toNat
        lastMeasuredIndex := index }, ?_, ?_, by simp; omega, rfl, ?_⟩
    · unfold getItemMetadata
      rw [if_pos hgt, hoff0]
      simp only [hinside]
    · refine ⟨by dsimp only; omega, ?_, ?_⟩
      · intro n hn
        dsimp only at hn ⊢
        by_cases hns : (n : Int) ≤ s.lastMeasuredIndex
        · rw [fillRange_eq_outside _ _ _ _ _ _ (Or.inl (by omega))]
          exact hc.stored n hns
        · exact fillRange_eq_inside σ props.itemSize _ _ _
            (by have := hc.lmi_lb; omega) hagree n (by omega) (by omega)
      · intro n hn
        dsimp only at hn
        exact hc.future n (by omega)
    · intro j hj
      dsimp only
      exact fillRange_eq_outside _ _ _ _ _ _ (by omega)
  · push_neg at hgt
    have hstored := hc.stored index.toNat (by omega)
    rw [Int.toNat_of_nonneg hidx] at hstored
    refine ⟨s, ?_, hc, by omega, rfl, fun j _ => rfl⟩
    unfold getItemMetadata
    rw [if_neg (by omega), hstored]

/-! ## Binary search correctness -/

theorem findNearestItemBinarySearch_correct (σ : Nat → Int) (props : Props)
    (hσ : ∀ n, 0 < σ n) (offset : Int) :
    ∀ (fuel : Nat) (high low : Int) (s : InstanceProps),
      (high + 1 - low).toNat ≤ fuel → Coherent σ props s →
      0 ≤ low → low ≤ high + 1 →
      (0 < low → layoutOffset σ (low - 1).toNat < offset) →
      offset < layoutOffset σ (high + 1).toNat →
      ∃ i s', findNearestItemBinarySearch props s high low offset = some (i, s')
        ∧ Coherent σ props s'
        ∧ s'.estimatedItemSize = s.estimatedItemSize
        ∧ 0 ≤ i
        ∧ ((layoutOffset σ i.toNat ≤ offset ∧ offset < layoutOffset σ (i.toNat + 1))
            ∨ (i = 0 ∧ offset < 0)) := by
  intro fuel
  induction fuel with
  | zero =>
      intro high low s hfuel hc hlow hlh h1 h2
      have hle : ¬ low ≤ high := by omega
      unfold findNearestItemBinarySearch
      rw [if_neg hle]
      by_cases hlow0 : low > 0
      · rw [if_pos hlow0]
        refine ⟨low - 1, s, rfl, hc, rfl, by omega, Or.inl ⟨le_of_lt (h1 hlow0), ?_⟩⟩
        have he : (low - 1).toNat + 1 = (high + 1).toNat := by omega
        rw [he]
        exact h2
      · rw [if_neg hlow0]
        have hh0 : (high + 1).toNat = 0 := by omega
        rw [hh0] at h2
        exact ⟨0, s, rfl, hc, rfl, le_rfl, Or.inr ⟨rfl, h2⟩⟩
  | succ fuel ih =>
      intro high low s hfuel hc hlow hlh h1 h2
      by_cases hle : low ≤ high
      · unfold findNearestItemBinarySearch
        rw [if_pos hle]
        have hmlow : low ≤ low + (high - low) / 2 := by omega
        have hmhigh : low + (high - low) / 2 ≤ high := by omega
        obtain ⟨s1, hgim, hc1, hlmi1, hest1, -⟩ :=
          getItemMetadata_coherent σ props hc (by omega : 0 ≤ low + (high - low) / 2)
        simp only [hgim]
        by_cases heq : layoutOffset σ (low + (high - low) / 2).toNat = offset
        · rw [if_pos heq]
          refine ⟨low + (high - low) / 2, s1, rfl, hc1, hest1, by omega, Or.inl ⟨le_of_eq heq, ?_⟩⟩
          have := hσ (low + (high - low) / 2).toNat
          have hl : layoutOffset σ ((low + (high - low) / 2).toNat + 1)
              = layoutOffset σ (low + (high - low) / 2).toNat
                + σ (low + (high - low) / 2).toNat := rfl
          omega
        · rw [if_neg heq]
          by_cases hlt : layoutOffset σ (low + (high - low) / 2).toNat < offset
          · rw [if_pos hlt]
            obtain ⟨i, s2, hrun, hc2, hest2, hi0, hbr⟩ :=
              ih high (low + (high - low) / 2 + 1) s1 (by omega) hc1 (by omega)
                (by omega)
                (by intro _
                    have he : (low + (high - low) / 2 + 1 - 1).toNat
                        = (low + (high - low) / 2).toNat := by omega
                    rw [he]; exact hlt)
                h2
            exact ⟨i, s2, hrun, hc2, hest2.trans hest1, hi0, hbr⟩
          · rw [if_neg hlt]
            obtain ⟨i, s2, hrun, hc2, hest2, hi0, hbr⟩ :=
              ih (low + (high - low) / 2 - 1) low s1 (by omega) hc1 hlow (by omega) h1
                (by have he : (low + (high - low) / 2 - 1 + 1).toNat
                      = (low + (high - low) / 2).toNat := by omega
                    rw [he]; omega)
            exact ⟨i, s2, hrun, hc2, hest2.trans hest1, hi0, hbr⟩
      · unfold findNearestItemBinarySearch
        rw [if_neg hle]
        by_cases hlow0 : low > 0
        · rw [if_pos hlow0]
          refine ⟨low - 1, s, rfl, hc, rfl, by omega, Or.inl ⟨le_of_lt (h1 hlow0), ?_⟩⟩
          have he : (low - 1).toNat + 1 = (high + 1).toNat := by omega
          rw [he]
          exact h2
        · rw [if_neg hlow0]
          have hl0 : low = 0 := by omega
          have hh0 : (high + 1).toNat = 0 := by omega
          rw [hh0] at h2
          exact ⟨0, s, rfl, hc, rfl, le_rfl, Or.inr ⟨rfl, h2⟩⟩

/-! ## Exponential search correctness -/

theorem exponentialProbe_correct (σ : Nat → Int) (props : Props) (offset : Int) :
    ∀ (fuel : Nat) (index interval : Int) (hI : 0 < interval) (s : InstanceProps),
      ((props.itemCount : Int) + 1 - index).toNat ≤ fuel →
      Coherent σ props s →
      0 ≤ index → interval ≤ index + 2 →
      (∃ q : Int, 0 ≤ q ∧ layoutOffset σ q.toNat < offset ∧ index ≤ 2 * q + 2) →
      ∃ idx s', exponentialProbe props offset index interval hI s = some (idx, s')
        ∧ Coherent σ props s'
        ∧ s'.estimatedItemSize = s.estimatedItemSize
        ∧ index ≤ idx
        ∧ (¬ (idx < (props.itemCount : Int)) ∨ offset ≤ layoutOffset σ idx.toNat)
        ∧ (∃ q : Int, 0 ≤ q ∧ layoutOffset σ q.toNat < offset ∧ idx ≤ 2 * q + 2) := by
  intro fuel
  induction fuel with
  | zero =>
      intro index interval hI s hfuel hc hup hint hq
      have hnlt : ¬ index < (props.itemCount : Int) := by omega
      unfold exponentialProbe
      rw [if_neg hnlt]
      exact ⟨index, s, rfl, hc, rfl, le_rfl, Or.inl hnlt, hq⟩
  | succ fuel ih =>
      intro index interval hI s hfuel hc hup hint hq
      by_cases hlt : index < (props.itemCount : Int)
      · unfold exponentialProbe
        rw [if_pos hlt]
        obtain ⟨s1, hgim, hc1, _, hest1, -⟩ := getItemMetadata_coherent σ props hc hup
        simp only [hgim]
        by_cases hoff : layoutOffset σ index.toNat < offset
        · rw [if_pos hoff]
          obtain ⟨idx, s2, hrun, hc2, hest2, hidx, hexit, hq2⟩ :=
            ih (index + interval) (interval * 2) (by omega) s1 (by omega) hc1
              (by omega) (by omega) ⟨index, hup, hoff, by omega⟩
          exact ⟨idx, s2, hrun, hc2, hest2.trans hest1, by omega, hexit, hq2⟩
        · rw [if_neg hoff]
          exact ⟨index, s1, rfl, hc1, hest1, le_rfl, Or.inr (by omega), hq⟩
      · unfold exponentialProbe
        rw [if_neg hlt]
        exact ⟨index, s, rfl, hc, rfl, le_rfl, Or.inl hlt, hq⟩

theorem findNearestItemExponentialSearch_correct (σ : Nat → Int) (props : Props)
    (hσ : ∀ n, 0 < σ n) {s : InstanceProps} (hc : Coherent σ props s)
    {index offset : Int} (hidx : 0 ≤ index)
    (hstart : layoutOffset σ index.toNat < offset)
    (htotal : offset < layoutOffset σ props.itemCount) :
    ∃ i s', findNearestItemExponentialSearch props s index offset = some (i, s')
      ∧ Coherent σ props s'
      ∧ s'.estimatedItemSize = s.estimatedItemSize
      ∧ 0 ≤ i
      ∧ layoutOffset σ i.toNat ≤ offset ∧ offset < layoutOffset σ (i.toNat + 1) := by
  obtain ⟨idx, s1, hprobe, hc1, hest1, hge, hexit, q, hq0, hqoff, hqbound⟩ :=
    exponentialProbe_correct σ props offset
      (((props.itemCount : Int) + 1 - index).toNat) index 1 one_pos s le_rfl hc hidx
      (by omega) ⟨index, hidx, hstart, by omega⟩
  have hqlt : q.toNat < props.itemCount := by
    by_contra hcon
    have : layoutOffset σ props.itemCount ≤ layoutOffset σ q.toNat :=
      layoutOffset_le_layoutOffset σ hσ (by omega)
    omega
  have hh2 : offset < layoutOffset σ ((min idx ((props.itemCount : Int) - 1)) + 1).toNat := by
    rcases le_or_lt idx ((props.itemCount : Int) - 1) with hca | hca
    · have hmin : min idx ((props.itemCount : Int) - 1) = idx := min_eq_left hca
      rcases hexit with hex | hex
      · omega
      · have hstep : layoutOffset σ ((idx + 1).toNat)
            = layoutOffset σ idx.toNat + σ idx.toNat := by
          have h1 : (idx + 1).toNat = idx.toNat + 1 := by omega
          rw [h1]
          rfl
        have := hσ idx.toNat
        rw [hmin]
        omega
    · have hmin : min idx ((props.itemCount : Int) - 1) = (props.itemCount : Int) - 1 :=
        min_eq_right (by omega)
      rw [hmin]
      have h1 : ((props.itemCount : Int) - 1 + 1).toNat = props.itemCount := by omega
      rw [h1]
      exact htotal
  have h1 : 0 < idx / 2 → layoutOffset σ (idx / 2 - 1).toNat < offset := by
    intro hpos
    have hle : (idx / 2 - 1).toNat ≤ q.toNat := by omega
    have := layoutOffset_le_layoutOffset σ hσ hle
    omega
  obtain ⟨i, s2, hrun, hc2, hest2, hi0, hbr⟩ :=
    findNearestItemBinarySearch_correct σ props hσ offset
      ((min idx ((props.itemCount : Int) - 1) + 1 - idx / 2).toNat)
      (min idx ((props.itemCount : Int) - 1)) (idx / 2) s1 le_rfl hc1
      (by omega) (by omega) h1 hh2
  have hoffpos : 0 ≤ offset := by
    have := layoutOffset_nonneg σ hσ index.toNat
    omega
  rcases hbr with hbr | hbr
  · refine ⟨i, s2, ?_, hc2, hest2.trans hest1, hi0, hbr.1, hbr.2⟩
    unfold findNearestItemExponentialSearch
    rw [hprobe]
    exact hrun
  · omega

/-! ## `findNearestItem` correctness -/

/-- Search correctness once something has been measured (`0 ≤ lastMeasuredIndex`):
for `0 ≤ offset < exact total size` the returned index is the item containing
`offset`. -/
theorem findNearestItem_found (σ : Nat → Int) (props : Props)
    (hσ : ∀ n, 0 < σ n) {s : InstanceProps} (hc : Coherent σ props s)
    (hlmi0 : 0 ≤ s.lastMeasuredIndex)
    {offset : Int} (h0 : 0 ≤ offset)
    (htotal : offset < layoutOffset σ props.itemCount) :
    ∃ i s', findNearestItem props s offset = some (i, s')
      ∧ Coherent σ props s'
      ∧ s'.estimatedItemSize = s.estimatedItemSize
      ∧ 0 ≤ i
      ∧ layoutOffset σ i.toNat ≤ offset ∧ offset < layoutOffset σ (i.toNat + 1) := by
  have hproxy : (if s.lastMeasuredIndex > 0 then
      (s.itemMetadataMap s.lastMeasuredIndex).map (fun m => m.offset)
    else some 0) = some (if s.lastMeasuredIndex > 0 then
      layoutOffset σ s.lastMeasuredIndex.toNat else 0) := by
    by_cases hl : s.lastMeasuredIndex > 0
    · have hstored := hc.stored s.lastMeasuredIndex.toNat (by omega)
      rw [Int.toNat_of_nonneg (by omega)] at hstored
      rw [if_pos hl, if_pos hl, hstored]
      rfl
    · rw [if_neg hl, if_neg hl]
  by_cases hbranch : (if s.lastMeasuredIndex > 0 then
      layoutOffset σ s.lastMeasuredIndex.toNat else 0) ≥ offset
  · -- binary-search branch
    have hh2 : offset < layoutOffset σ (s.lastMeasuredIndex + 1).toNat := by
      have hstep : layoutOffset σ (s.lastMeasuredIndex + 1).toNat
          = layoutOffset σ s.lastMeasuredIndex.toNat + σ s.lastMeasuredIndex.toNat := by
        have h1 : (s.lastMeasuredIndex + 1).toNat = s.lastMeasuredIndex.toNat + 1 := by
          omega
        rw [h1]
        rfl
      have := hσ s.lastMeasuredIndex.toNat
      have := layoutOffset_nonneg σ hσ s.lastMeasuredIndex.toNat
      by_cases hl : s.lastMeasuredIndex > 0
      · rw [if_pos hl] at hbranch
        omega
      · rw [if_neg hl] at hbranch
        have : s.lastMeasuredIndex.toNat = 0 := by omega
        omega
    obtain ⟨i, s', hrun, hc', hest', hi0, hbr⟩ :=
      findNearestItemBinarySearch_correct σ props hσ offset
        ((s.lastMeasuredIndex + 1).toNat) s.lastMeasuredIndex 0 s (by omega) hc
        le_rfl (by omega) (by omega) hh2
    refine ⟨i, s', ?_, hc', hest', hi0, ?_⟩
    · unfold findNearestItem
      rw [hproxy]
      simp only
      rw [if_pos hbranch]
      exact hrun
    · rcases hbr with hbr | hbr
      · exact hbr
      · omega
  · -- exponential-search branch
    have hstart : layoutOffset σ s.lastMeasuredIndex.toNat < offset := by
      by_cases hl : s.lastMeasuredIndex > 0
      · rw [if_pos hl] at hbranch
        omega
      · rw [if_neg hl] at hbranch
        have h00 : s.lastMeasuredIndex.toNat = 0 := by omega
        rw [h00]
        have : layoutOffset σ 0 = 0 := rfl
        omega
    obtain ⟨i, s', hrun, hc', hest', hi0, hbr1, hbr2⟩ :=
      findNearestItemExponentialSearch_correct σ props hσ hc hlmi0 hstart htotal
    refine ⟨i, s', ?_, hc', hest', hi0, hbr1, hbr2⟩
    unfold findNearestItem
    rw [hproxy]
    simp only
    rw [if_neg hbranch]
    exact hrun

/-- For `offset ≤ 0` the search returns index 0 in every coherent state. -/
theorem findNearestItem_nonpos (σ : Nat → Int) (props : Props)
    (hσ : ∀ n, 0 < σ n) {s : InstanceProps} (hc : Coherent σ props s)
    {offset : Int} (h0 : offset ≤ 0) :
    ∃ s', findNearestItem props s offset = some (0, s') := by
  have hproxy : (if s.lastMeasuredIndex > 0 then
      (s.itemMetadataMap s.lastMeasuredIndex).map (fun m => m.offset)
    else some 0) = some (if s.lastMeasuredIndex > 0 then
      layoutOffset σ s.lastMeasuredIndex.toNat else 0) := by
    by_cases hl : s.lastMeasuredIndex > 0
    · have hstored := hc.stored s.lastMeasuredIndex.toNat (by omega)
      rw [Int.toNat_of_nonneg (by omega)] at hstored
      rw [if_pos hl, if_pos hl, hstored]
      rfl
    · rw [if_neg hl, if_neg hl]
  have hbranch : (if s.lastMeasuredIndex > 0 then
      layoutOffset σ s.lastMeasuredIndex.toNat else 0) ≥ offset := by
    by_cases hl : s.lastMeasuredIndex > 0
    · rw [if_pos hl]
      have := layoutOffset_nonneg σ hσ s.lastMeasuredIndex.toNat
      omega
    · rw [if_neg hl]
      omega
  by_cases hneg : s.lastMeasuredIndex = -1
  · -- the inner binary search exits immediately with low = 0
    refine ⟨s, ?_⟩
    unfold findNearestItem
    rw [hproxy]
    simp only
    rw [if_pos hbranch, hneg]
    unfold findNearestItemBinarySearch
    norm_num
  · have hlmi0 : 0 ≤ s.lastMeasuredIndex := by have := hc.lmi_lb; omega
    have hh2 : offset < layoutOffset σ (s.lastMeasuredIndex + 1).toNat := by
      have h1 : (s.lastMeasuredIndex + 1).toNat = s.lastMeasuredIndex.toNat + 1 := by
        omega
      have hstep : layoutOffset σ (s.lastMeasuredIndex.toNat + 1)
          = layoutOffset σ s.lastMeasuredIndex.toNat + σ s.lastMeasuredIndex.toNat := rfl
      have := hσ s.lastMeasuredIndex.toNat
      have := layoutOffset_nonneg σ hσ s.lastMeasuredIndex.toNat
      rw [h1]
      omega
    obtain ⟨i, s', hrun, _, _, hi0, hbr⟩ :=
      findNearestItemBinarySearch_correct σ props hσ offset
        ((s.lastMeasuredIndex + 1).toNat) s.lastMeasuredIndex 0 s (by omega) hc
        le_rfl (by omega) (by omega) hh2
    have hi : i = 0 := by
      rcases hbr with hbr | hbr
      · rcases Int.lt_or_le 0 i with hip | hip
        · have h00 : layoutOffset σ 1 ≤ layoutOffset σ i.toNat :=
            layoutOffset_le_layoutOffset σ hσ (by omega)
          have h01 : layoutOffset σ 1 = σ 0 := by
            have : layoutOffset σ 1 = layoutOffset σ 0 + σ 0 := rfl
            have h02 : layoutOffset σ 0 = 0 := rfl
            omega
          have := hσ 0
          omega
        · omega
      · exact hbr.1
    refine ⟨s', ?_⟩
    unfold findNearestItem
    rw [hproxy]
    simp only
    rw [if_pos hbranch]
    rw [hi] at hrun
    exact hrun

/-! ## The store invariant over reachable states -/

theorem layoutOffset_congr (σ τ : Nat → Int) (n : Nat) (h : ∀ k, k < n → σ k = τ k) :
    layoutOffset σ n = layoutOffset τ n := by
  induction n with
  | zero => rfl
  | succ n ih =>
      simp only [layoutOffset]
      rw [ih (fun k hk => h k (by omega)), h n (by omega)]

theorem sumStoredSizes_eq_layoutOffset (σ : Nat → Int) (map : MetaMap) (n : Nat)
    (h : ∀ k : Nat, k < n → map k = some ⟨layoutOffset σ k, σ k⟩) :
    sumStoredSizes map n = layoutOffset σ n := by
  induction n with
  | zero => rfl
  | succ n ih =>
      simp only [sumStoredSizes, layoutOffset]
      rw [ih (fun k hk => h k (by omega)), h n (by omega)]
      rfl

/-- The store invariant: the watermark is at least −1 and every measured entry stores
the exact cumulative offsets of some size assignment. -/
def StoreInvariant (s : InstanceProps) : Prop :=
  -1 ≤ s.lastMeasuredIndex ∧
  ∃ σ : Nat → Int, ∀ n : Nat, (n : Int) ≤ s.lastMeasuredIndex →
    s.itemMetadataMap n = some ⟨layoutOffset σ n, σ n⟩

theorem coherent_of_storeInvariant {s : InstanceProps} (inv : StoreInvariant s)
    (props : Props) : ∃ σ, Coherent σ props s := by
  obtain ⟨hlb, σ, hst⟩ := inv
  refine ⟨fun n => if (n : Int) ≤ s.lastMeasuredIndex then σ n else props.itemSize n,
    hlb, ?_, ?_⟩
  · intro n hn
    have hcg : layoutOffset
        (fun k => if (k : Int) ≤ s.lastMeasuredIndex then σ k else props.itemSize k) n
        = layoutOffset σ n := by
      refine layoutOffset_congr _ _ n (fun k hk => ?_)
      have hk' : ((k : Int)) ≤ s.lastMeasuredIndex := by omega
      simp [hk']
    rw [hcg, if_pos hn]
    exact hst n hn
  · intro n hn
    rw [if_neg (by omega)]

theorem storeInvariant_of_coherent {σ : Nat → Int} {props : Props} {s : InstanceProps}
    (hc : Coherent σ props s) : StoreInvariant s :=
  ⟨hc.lmi_lb, σ, hc.stored⟩

theorem reachable_storeInvariant {s : InstanceProps} (h : Reachable s) :
    StoreInvariant s := by
  induction h with
  | init est =>
      refine ⟨by simp [initInstanceProps], fun _ => 0, fun n hn => ?_⟩
      simp only [initInstanceProps] at hn
      omega
  | measure props hpos index hidx hprev ih =>
      obtain ⟨σ, hc⟩ := coherent_of_storeInvariant ih props
      obtain ⟨s', hgim, hc', _, _, _⟩ := getItemMetadata_coherent σ props hc hidx
      simp only [measureStep, hgim]
      exact storeInvariant_of_coherent hc'
  | reset index hidx hprev ih =>
      obtain ⟨hlb, σ, hst⟩ := ih
      refine ⟨?_, σ, fun n hn => hst n ?_⟩
      · unfold resetAfterIndex
        dsimp only
        omega
      · unfold resetAfterIndex at hn
        dsimp only at hn
        omega

/-! ## Estimated total size -/

theorem getEstimatedTotalSize_eq (σ : Nat → Int) (props : Props) {s : InstanceProps}
    (hc : Coherent σ props s) :
    getEstimatedTotalSize props s
      = some ((if 0 ≤ s.lastMeasuredIndex then
            layoutOffset σ s.lastMeasuredIndex.toNat + σ s.lastMeasuredIndex.toNat
          else 0)
        + ((props.itemCount : Int) - s.lastMeasuredIndex - 1) * s.estimatedItemSize) := by
  unfold getEstimatedTotalSize
  by_cases hl : s.lastMeasuredIndex ≥ 0
  · have hstored := hc.stored s.lastMeasuredIndex.toNat (by omega)
    rw [Int.toNat_of_nonneg hl] at hstored
    rw [if_pos hl, if_pos hl, hstored]
    rfl
  · rw [if_neg hl, if_neg hl]

/-! ## Stop index -/

theorem stopIndexLoop_correct (σ : Nat → Int) (props : Props) (maxOffset : Int) :
    ∀ (fuel : Nat) (stopIndex : Int) (s : InstanceProps),
      ((props.itemCount : Int) - 1 - stopIndex).toNat ≤ fuel →
      Coherent σ props s →
      0 ≤ stopIndex → stopIndex ≤ (props.itemCount : Int) - 1 →
      ∃ j s', stopIndexLoop props maxOffset stopIndex
          (layoutOffset σ (stopIndex + 1).toNat) s = some (j, s')
        ∧ Coherent σ props s'
        ∧ s'.estimatedItemSize = s.estimatedItemSize
        ∧ stopIndex ≤ j ∧ j ≤ (props.itemCount : Int) - 1
        ∧ (maxOffset ≤ layoutOffset σ (j + 1).toNat ∨ j = (props.itemCount : Int) - 1)
        ∧ (∀ k : Int, stopIndex ≤ k → k < j →
            layoutOffset σ (k + 1).toNat < maxOffset) := by
  intro fuel
  induction fuel with
  | zero =>
      intro stopIndex s hfuel hc h0 hub
      have hstop : stopIndex = (props.itemCount : Int) - 1 := by omega
      unfold stopIndexLoop
      rw [if_neg (by omega)]
      exact ⟨stopIndex, s, rfl, hc, rfl, le_rfl, by omega, Or.inr hstop,
        fun k hk1 hk2 => by omega⟩
  | succ fuel ih =>
      intro stopIndex s hfuel hc h0 hub
      by_cases hcond : stopIndex < (props.itemCount : Int) - 1
        ∧ layoutOffset σ (stopIndex + 1).toNat < maxOffset
      · unfold stopIndexLoop
        rw [if_pos hcond]
        obtain ⟨s1, hgim, hc1, _, hest1, -⟩ :=
          getItemMetadata_coherent σ props hc (by omega : 0 ≤ stopIndex + 1)
        simp only [hgim]
        have hstep : layoutOffset σ (stopIndex + 1).toNat + σ (stopIndex + 1).toNat
            = layoutOffset σ (stopIndex + 1 + 1).toNat := by
          have h1 : (stopIndex + 1 + 1).toNat = (stopIndex + 1).toNat + 1 := by omega
          rw [h1]
          rfl
        rw [hstep]
        obtain ⟨j, s2, hrun, hc2, hest2, hj1, hj2, hj3, hj4⟩ :=
          ih (stopIndex + 1) s1 (by omega) hc1 (by omega) (by omega)
        refine ⟨j, s2, hrun, hc2, hest2.trans hest1, by omega, hj2, hj3, ?_⟩
        intro k hk1 hk2
        rcases eq_or_lt_of_le hk1 with hke | hkl
        · rw [← hke]
          exact hcond.2
        · exact hj4 k (by omega) hk2
      · unfold stopIndexLoop
        rw [if_neg hcond]
        refine ⟨stopIndex, s, rfl, hc, rfl, le_rfl, hub, ?_,
          fun k hk1 hk2 => by omega⟩
        rcases not_and_or.mp hcond with h | h
        · exact Or.inr (by omega)
        · exact Or.inl (by omega)

theorem getStopIndexForStartIndex_correct (σ : Nat → Int) (props : Props)
    {s : InstanceProps} (hc : Coherent σ props s) {startIndex : Int}
    (h0 : 0 ≤ startIndex) (hub : startIndex ≤ (props.itemCount : Int) - 1)
    (scrollOffset : Int) :
    ∃ j s', getStopIndexForStartIndex props startIndex scrollOffset s = some (j, s')
      ∧ Coherent σ props s'
      ∧ s'.estimatedItemSize = s.estimatedItemSize
      ∧ startIndex ≤ j ∧ j ≤ (props.itemCount : Int) - 1
      ∧ (scrollOffset + axisSize props ≤ layoutOffset σ (j + 1).toNat
          ∨ j = (props.itemCount : Int) - 1)
      ∧ (∀ k : Int, startIndex ≤ k → k < j →
          layoutOffset σ (k + 1).toNat < scrollOffset + axisSize props) := by
  obtain ⟨s1, hgim, hc1, _, hest1, -⟩ := getItemMetadata_coherent σ props hc h0
  have hstep : layoutOffset σ startIndex.toNat + σ startIndex.toNat
      = layoutOffset σ (startIndex + 1).toNat := by
    have h1 : (startIndex + 1).toNat = startIndex.toNat + 1 := by omega
    rw [h1]
    rfl
  obtain ⟨j, s2, hrun, hc2, hest2, hj1, hj2, hj3, hj4⟩ :=
    stopIndexLoop_correct σ props (scrollOffset + axisSize props)
      (((props.itemCount : Int) - 1 - startIndex).toNat) startIndex s1 le_rfl hc1 h0 hub
  refine ⟨j, s2, ?_, hc2, hest2.trans hest1, hj1, hj2, hj3, hj4⟩
  unfold getStopIndexForStartIndex
  rw [hgim]
  simp only
  rw [hstep]
  exact hrun

/-! ## Alignment planner -/

theorem getOffsetForIndexAndAlignment_spec (σ : Nat → Int) (props : Props)
    {s : InstanceProps} (hc : Coherent σ props s) {index : Int} (hidx : 0 ≤ index)
    (align : ScrollToAlign) (scrollOffset : Int) :
    ∃ s', Coherent σ props s'
      ∧ getOffsetForIndexAndAlignment props index align scrollOffset s
        = some (
          (let estTotal : Int := layoutOffset σ (max s.lastMeasuredIndex index + 1).toNat
              + ((props.itemCount : Int) - max s.lastMeasuredIndex index - 1)
                * s.estimatedItemSize
           let maxOffset := min (estTotal - axisSize props) (layoutOffset σ index.toNat)
           let minOffset := max 0
             (layoutOffset σ index.toNat - axisSize props + σ index.toNat)
           match align with
           | .start => maxOffset
           | .end_ => minOffset
           | .center =>
               jsRound ((minOffset : ℚ) + ((maxOffset : ℚ) - (minOffset : ℚ)) / 2)
           | .auto =>
               if minOffset ≤ scrollOffset ∧ scrollOffset ≤ maxOffset then scrollOffset
               else if scrollOffset - minOffset < maxOffset - scrollOffset then minOffset
               else maxOffset), s') := by
  obtain ⟨s1, hgim, hc1, hlmi1, hest1, -⟩ := getItemMetadata_coherent σ props hc hidx
  have htot := getEstimatedTotalSize_eq σ props hc1
  rw [hlmi1, hest1] at htot
  have hpos : 0 ≤ max s.lastMeasuredIndex index := by omega
  rw [if_pos hpos] at htot
  have hstep : layoutOffset σ (max s.lastMeasuredIndex index).toNat
      + σ (max s.lastMeasuredIndex index).toNat
      = layoutOffset σ (max s.lastMeasuredIndex index + 1).toNat := by
    have h1 : (max s.lastMeasuredIndex index + 1).toNat
        = (max s.lastMeasuredIndex index).toNat + 1 := by omega
    rw [h1]
    rfl
  rw [hstep] at htot
  refine ⟨s1, hc1, ?_⟩
  unfold getOffsetForIndexAndAlignment
  rw [hgim]
  simp only [htot]
  cases align <;> first
    | rfl
    | (split_ifs <;> rfl)

/-! ## Measure-only states have no entries beyond the watermark -/

theorem storeInvariant_init (est : Int) : StoreInvariant (initInstanceProps est) := by
  refine ⟨by simp [initInstanceProps], fun _ => 0, fun n hn => ?_⟩
  simp only [initInstanceProps] at hn
  omega

theorem measureReachable_domain {s : InstanceProps} (h : MeasureReachable s) :
    StoreInvariant s
    ∧ ∀ j : Int, (s.lastMeasuredIndex < j ∨ j < 0) → s.itemMetadataMap j = none := by
  induction h with
  | init est => exact ⟨storeInvariant_init est, fun j _ => rfl⟩
  | measure props index hidx hprev ih =>
      obtain ⟨hinv, hnone⟩ := ih
      obtain ⟨σ, hc⟩ := coherent_of_storeInvariant hinv props
      obtain ⟨s', hgim, hc', hlmi', _, hframe⟩ := getItemMetadata_coherent σ props hc hidx
      simp only [measureStep, hgim]
      refine ⟨storeInvariant_of_coherent hc', ?_⟩
      intro j hj
      rw [hlmi'] at hj
      have hlb := hc.lmi_lb
      rw [hframe j (by omega)]
      exact hnone j (by omega)

/-! ## Cached reads -/

theorem getItemMetadata_cached (props propsB : Props) {index : Int} {s : InstanceProps}
    (h : index ≤ s.lastMeasuredIndex) :
    getItemMetadata props index s = getItemMetadata propsB index s
    ∧ ∀ m s', getItemMetadata props index s = some (m, s') → s' = s := by
  constructor
  · unfold getItemMetadata
    rw [if_neg (by omega), if_neg (by omega)]
  · intro m s' hms
    unfold getItemMetadata at hms
    rw [if_neg (by omega)] at hms
    cases hmap : s.itemMetadataMap index with
    | none => rw [hmap] at hms; exact absurd hms (by simp)
    | some mm =>
        rw [hmap] at hms
        simp only [Option.some.injEq, Prod.mk.injEq] at hms
        exact hms.2.symm -- hmm structure

/-! ## Spec-side alignment quantities (from the specification's formulas) -/

/-- From the spec: `totalSize = estimatedTotalSize()` computed *after* measuring
`index`, i.e. with the watermark advanced to `max(lastMeasuredIndex, index)`. -/
def estimatedTotalAfterMeasure (σ : Nat → Int) (props : Props) (s : InstanceProps)
    (index : Int) : Int :=
  layoutOffset σ (max s.lastMeasuredIndex index + 1).toNat
    + ((props.itemCount : Int) - max s.lastMeasuredIndex index - 1) * s.estimatedItemSize

/-- From the spec: `maxOffset = min(totalSize - viewportSize, itemMetadata.offset)`. -/
def specMaxOffset (σ : Nat → Int) (props : Props) (s : InstanceProps) (index : Int) : Int :=
  min (estimatedTotalAfterMeasure σ props s index - axisSize props)
    (layoutOffset σ index.toNat)

/-- From the spec: `minOffset = max(0, itemMetadata.offset - viewportSize +
itemMetadata.size)`. -/
def specMinOffset (σ : Nat → Int) (props : Props) (index : Int) : Int :=
  max 0 (layoutOffset σ index.toNat - axisSize props + σ index.toNat)

/-! ## Concrete fixtures -/

/-- Fixture: 10 items of size 25 in a vertical 100-pixel viewport. -/
def propsA : Props := ⟨10, 100, 0, .vertical, fun _ => 25⟩

/-- Fixture: 100 items of size 25 in a vertical 100-pixel viewport. -/
def propsB : Props := ⟨100, 100, 0, .vertical, fun _ => 25⟩

/-- Fixture: one 300-pixel item in a vertical 100-pixel viewport. -/
def propsC : Props := ⟨1, 100, 0, .vertical, fun _ => 300⟩

/-- Fixture: one 25-pixel item in a vertical 100-pixel viewport. -/
def propsD : Props := ⟨1, 100, 0, .vertical, fun _ => 25⟩

/-- Fixture: `propsA` with a different size getter (used to show cached reads ignore it). -/
def propsAlt : Props := ⟨10, 100, 0, .vertical, fun _ => 999⟩

theorem coherent_init (σ : Nat → Int) (props : Props) (est : Int)
    (h : ∀ n : Nat, props.itemSize n = σ n) :
    Coherent σ props (initInstanceProps est) := by
  refine ⟨by simp [initInstanceProps], fun n hn => ?_, fun n _ => h n⟩
  simp only [initInstanceProps] at hn
  omega

theorem coherent_measured_A :
    Coherent (fun _ => 25) propsA (measureStep propsA 2 (initInstanceProps 50)) := by
  have h2 : (measureStep propsA 2 (initInstanceProps 50)).lastMeasuredIndex = 2 := by
    decide
  refine ⟨by omega, fun n hn => ?_, fun n _ => rfl⟩
  have hn' : n ≤ 2 := by omega
  interval_cases n <;> decide

/-! ## Claim theorems -/

/-- Claim C1 (code bug): in a fresh instance (`lastMeasuredIndex = -1`) with one item of
size 25, the scroll offset 5 lies in `[0, totalExactSize) = [0, 25)` inside item 0,
yet `findNearestItem` produces no index at all: the exponential-search fallback is
started at `lastMeasuredIndex = -1` (without the upstream `Math.max(0, ·)` clamp) and
dereferences the missing map entry `itemMetadataMap[-1]` — a `TypeError` in
JavaScript, `none` in this model — instead of returning the unique containing
index 0. -/
theorem findNearestItem_fresh_positive_offset_fails :
    findNearestItem propsD (initInstanceProps 50) 5 = none
    ∧ (initInstanceProps 50).lastMeasuredIndex = -1
    ∧ (0 : Int) ≤ 5 ∧ (5 : Int) < layoutOffset (fun _ => 25) propsD.itemCount
    ∧ layoutOffset (fun _ => 25) 0 ≤ 5
    ∧ (5 : Int) < layoutOffset (fun _ => 25) (0 + 1) := by
  refine ⟨?_, rfl, by decide, by decide, by decide, by decide⟩
  have hprobe : exponentialProbe propsD 5 (-1) 1 one_pos (initInstanceProps 50)
      = none := by
    unfold exponentialProbe
    rw [if_pos (by decide)]
    rfl
  have hexp : findNearestItemExponentialSearch propsD (initInstanceProps 50) (-1) 5
      = none := by
    unfold findNearestItemExponentialSearch
    rw [hprobe]
  unfold findNearestItem
  rw [if_neg (by decide)]
  simp only
  rw [if_neg (by decide)]
  exact hexp

/-- Claim C2: in every state reachable by measuring calls (with positive size getters)
and `resetAfterIndex` calls on a fresh instance, each measured entry stores as offset
the sum of the stored sizes of the items before it; consequently consecutive measured
entries satisfy `offset(i+1) = offset(i) + size(i)`. -/
theorem metadata_offsets_are_prefix_sums {s : InstanceProps} (h : Reachable s)
    (i : Nat) (hi : (i : Int) ≤ s.lastMeasuredIndex) :
    (∃ m, s.itemMetadataMap i = some m
      ∧ m.offset = sumStoredSizes s.itemMetadataMap i)
    ∧ ((i : Int) + 1 ≤ s.lastMeasuredIndex →
        ((s.itemMetadataMap ((i : Int) + 1)).getD ⟨0, 0⟩).offset
          = ((s.itemMetadataMap i).getD ⟨0, 0⟩).offset
            + ((s.itemMetadataMap i).getD ⟨0, 0⟩).size) := by
  obtain ⟨hlb, σ, hst⟩ := reachable_storeInvariant h
  constructor
  · refine ⟨⟨layoutOffset σ i, σ i⟩, hst i hi, ?_⟩
    dsimp only
    rw [sumStoredSizes_eq_layoutOffset σ _ i (fun k hk => hst k (by omega))]
  · intro hi1
    have h1 := hst i hi
    have h2 := hst (i + 1) (by push_cast; omega)
    have hcast : ((i : Int) + 1) = ((i + 1 : Nat) : Int) := by push_cast; ring
    rw [hcast, h1, h2]
    dsimp only [Option.getD]
    rfl

theorem metadata_offsets_are_prefix_sums_witness :
    ((1 : Int) ≤ (measureStep propsA 2 (initInstanceProps 50)).lastMeasuredIndex)
    ∧ ((∃ m, (measureStep propsA 2 (initInstanceProps 50)).itemMetadataMap 1 = some m
        ∧ m.offset
          = sumStoredSizes (measureStep propsA 2 (initInstanceProps 50)).itemMetadataMap 1)
      ∧ (((1 : Nat) : Int) + 1 ≤ (measureStep propsA 2 (initInstanceProps 50)).lastMeasuredIndex →
          (((measureStep propsA 2 (initInstanceProps 50)).itemMetadataMap (((1 : Nat) : Int) + 1)).getD ⟨0, 0⟩).offset
            = (((measureStep propsA 2 (initInstanceProps 50)).itemMetadataMap (1 : Nat)).getD ⟨0, 0⟩).offset
              + (((measureStep propsA 2 (initInstanceProps 50)).itemMetadataMap (1 : Nat)).getD ⟨0, 0⟩).size)) :=
  ⟨by decide,
   metadata_offsets_are_prefix_sums
     (Reachable.measure propsA (fun _ => by norm_num [propsA]) 2 (by decide)
       (Reachable.init 50))
     1 (by decide)⟩

/-- Claim C3: `getEstimatedTotalSize` returns `measuredTotal + unmeasuredCount ×
estimatedItemSize`, with `measuredTotal = offset(lastMeasuredIndex) +
size(lastMeasuredIndex)` (0 when nothing is measured) and `unmeasuredCount =
itemCount − lastMeasuredIndex − 1`; in particular with 100 items,
`estimatedItemSize = 50` and the first 5 items measured at size 25 it returns 4875. -/
theorem getEstimatedTotalSize_formula {s : InstanceProps} (props : Props)
    (h : Reachable s) :
    getEstimatedTotalSize props s
      = some ((if 0 ≤ s.lastMeasuredIndex then
            ((s.itemMetadataMap s.lastMeasuredIndex).getD ⟨0, 0⟩).offset
              + ((s.itemMetadataMap s.lastMeasuredIndex).getD ⟨0, 0⟩).size
          else 0)
        + ((props.itemCount : Int) - s.lastMeasuredIndex - 1) * s.estimatedItemSize)
    ∧ getEstimatedTotalSize propsB (measureStep propsB 4 (initInstanceProps 50))
        = some 4875 := by
  refine ⟨?_, by decide⟩
  obtain ⟨hlb, σ, hst⟩ := reachable_storeInvariant h
  unfold getEstimatedTotalSize
  by_cases hl : s.lastMeasuredIndex ≥ 0
  · have hstored := hst s.lastMeasuredIndex.toNat (by omega)
    rw [Int.toNat_of_nonneg (by omega)] at hstored
    rw [if_pos hl, if_pos (by omega), hstored]
    rfl
  · rw [if_neg hl, if_neg (by omega)]

theorem getEstimatedTotalSize_formula_witness :
    getEstimatedTotalSize propsB (measureStep propsB 4 (initInstanceProps 50))
      = some ((if 0 ≤ (measureStep propsB 4 (initInstanceProps 50)).lastMeasuredIndex then
            (((measureStep propsB 4 (initInstanceProps 50)).itemMetadataMap
                (measureStep propsB 4 (initInstanceProps 50)).lastMeasuredIndex).getD ⟨0, 0⟩).offset
              + (((measureStep propsB 4 (initInstanceProps 50)).itemMetadataMap
                  (measureStep propsB 4 (initInstanceProps 50)).lastMeasuredIndex).getD ⟨0, 0⟩).size
          else 0)
        + ((propsB.itemCount : Int)
            - (measureStep propsB 4 (initInstanceProps 50)).lastMeasuredIndex - 1)
          * (measureStep propsB 4 (initInstanceProps 50)).estimatedItemSize)
    ∧ getEstimatedTotalSize propsB (measureStep propsB 4 (initInstanceProps 50))
        = some 4875 :=
  getEstimatedTotalSize_formula propsB
    (Reachable.measure propsB (fun _ => by norm_num [propsB]) 4 (by decide)
      (Reachable.init 50))

/-- Claim C4: for every measured-on-demand index, `getOffsetForIndexAndAlignment`
returns `maxOffset` for `start`, `minOffset` for `end`, and
`round(minOffset + (maxOffset − minOffset)/2)` for `center`, where
`maxOffset = min(estimatedTotalSize − viewportSize, offset(index))`,
`minOffset = max(0, offset(index) − viewportSize + size(index))`, and the estimated
total size is the one computed after measuring `index`. -/
theorem getOffsetForAlignment_start_end_center (σ : Nat → Int) (props : Props)
    {s : InstanceProps} (hc : Coherent σ props s) {index : Int} (hidx : 0 ≤ index)
    (scrollOffset : Int) :
    (∃ s', getOffsetForIndexAndAlignment props index .start scrollOffset s
        = some (specMaxOffset σ props s index, s'))
    ∧ (∃ s', getOffsetForIndexAndAlignment props index .end_ scrollOffset s
        = some (specMinOffset σ props index, s'))
    ∧ (∃ s', getOffsetForIndexAndAlignment props index .center scrollOffset s
        = some (jsRound ((specMinOffset σ props index : ℚ)
            + ((specMaxOffset σ props s index : ℚ)
              - (specMinOffset σ props index : ℚ)) / 2), s')) := by
  refine ⟨?_, ?_, ?_⟩
  · obtain ⟨s', -, heq⟩ :=
      getOffsetForIndexAndAlignment_spec σ props hc hidx .start scrollOffset
    exact ⟨s', heq⟩
  · obtain ⟨s', -, heq⟩ :=
      getOffsetForIndexAndAlignment_spec σ props hc hidx .end_ scrollOffset
    exact ⟨s', heq⟩
  · obtain ⟨s', -, heq⟩ :=
      getOffsetForIndexAndAlignment_spec σ props hc hidx .center scrollOffset
    exact ⟨s', heq⟩

theorem getOffsetForAlignment_start_end_center_witness :
    (∃ s', getOffsetForIndexAndAlignment propsA 4 .start 0 (initInstanceProps 50)
        = some (specMaxOffset (fun _ => 25) propsA (initInstanceProps 50) 4, s'))
    ∧ (∃ s', getOffsetForIndexAndAlignment propsA 4 .end_ 0 (initInstanceProps 50)
        = some (specMinOffset (fun _ => 25) propsA 4, s'))
    ∧ (∃ s', getOffsetForIndexAndAlignment propsA 4 .center 0 (initInstanceProps 50)
        = some (jsRound ((specMinOffset (fun _ => 25) propsA 4 : ℚ)
            + ((specMaxOffset (fun _ => 25) propsA (initInstanceProps 50) 4 : ℚ)
              - (specMinOffset (fun _ => 25) propsA 4 : ℚ)) / 2), s')) :=
  getOffsetForAlignment_start_end_center (fun _ => 25) propsA
    (coherent_init (fun _ => 25) propsA 50 (fun _ => rfl)) (by decide) 0

/-- Claim C5 (amended): for `align = auto`, a `scrollOffset` inside
`[minOffset, maxOffset]` is returned unchanged; otherwise the code returns
`minOffset` exactly when `scrollOffset − minOffset < maxOffset − scrollOffset` and
`maxOffset` otherwise.  When `minOffset ≤ maxOffset` this picks the endpoint
numerically closer to `scrollOffset`, but an exact distance tie yields `maxOffset`,
not `minOffset`. -/
theorem getOffsetForAlignment_auto_spec (σ : Nat → Int) (props : Props)
    {s : InstanceProps} (hc : Coherent σ props s) {index : Int} (hidx : 0 ≤ index)
    (scrollOffset : Int) :
    ∃ s' v, getOffsetForIndexAndAlignment props index .auto scrollOffset s
        = some (v, s')
      ∧ (specMinOffset σ props index ≤ scrollOffset
          ∧ scrollOffset ≤ specMaxOffset σ props s index → v = scrollOffset)
      ∧ (¬ (specMinOffset σ props index ≤ scrollOffset
          ∧ scrollOffset ≤ specMaxOffset σ props s index) →
          v = if scrollOffset - specMinOffset σ props index
              < specMaxOffset σ props s index - scrollOffset
            then specMinOffset σ props index else specMaxOffset σ props s index)
      ∧ (scrollOffset - specMinOffset σ props index
          = specMaxOffset σ props s index - scrollOffset →
          ¬ (specMinOffset σ props index ≤ scrollOffset
            ∧ scrollOffset ≤ specMaxOffset σ props s index) →
          v = specMaxOffset σ props s index)
      ∧ (specMinOffset σ props index ≤ specMaxOffset σ props s index →
          scrollOffset < specMinOffset σ props index → v = specMinOffset σ props index)
      ∧ (specMinOffset σ props index ≤ specMaxOffset σ props s index →
          specMaxOffset σ props s index < scrollOffset →
          v = specMaxOffset σ props s index) := by
  obtain ⟨s', -, heq⟩ :=
    getOffsetForIndexAndAlignment_spec σ props hc hidx .auto scrollOffset
  by_cases hin : specMinOffset σ props index ≤ scrollOffset
      ∧ scrollOffset ≤ specMaxOffset σ props s index
  · refine ⟨s', scrollOffset, ?_, fun _ => rfl, fun hno => absurd hin hno,
      fun _ hno => absurd hin hno, fun _ hlt => by omega, fun _ hlt => by omega⟩
    rw [heq]
    congr 1
    rw [Prod.mk.injEq]
    refine ⟨?_, rfl⟩
    show (if specMinOffset σ props index ≤ scrollOffset
        ∧ scrollOffset ≤ specMaxOffset σ props s index then scrollOffset
      else if scrollOffset - specMinOffset σ props index
          < specMaxOffset σ props s index - scrollOffset
        then specMinOffset σ props index else specMaxOffset σ props s index) = _
    rw [if_pos hin]
  · by_cases hcl : scrollOffset - specMinOffset σ props index
        < specMaxOffset σ props s index - scrollOffset
    · refine ⟨s', specMinOffset σ props index, ?_, fun hyes => absurd hyes hin,
        fun _ => by rw [if_pos hcl], fun htie _ => by omega,
        fun _ _ => rfl, fun hle hlt => by omega⟩
      rw [heq]
      congr 1
      rw [Prod.mk.injEq]
      refine ⟨?_, rfl⟩
      show (if specMinOffset σ props index ≤ scrollOffset
          ∧ scrollOffset ≤ specMaxOffset σ props s index then scrollOffset
        else if scrollOffset - specMinOffset σ props index
            < specMaxOffset σ props s index - scrollOffset
          then specMinOffset σ props index else specMaxOffset σ props s index) = _
      rw [if_neg hin, if_pos hcl]
    · refine ⟨s', specMaxOffset σ props s index, ?_, fun hyes => absurd hyes hin,
        fun _ => by rw [if_neg hcl], fun _ _ => rfl,
        fun hle hlt => by omega, fun _ _ => rfl⟩
      rw [heq]
      congr 1
      rw [Prod.mk.injEq]
      refine ⟨?_, rfl⟩
      show (if specMinOffset σ props index ≤ scrollOffset
          ∧ scrollOffset ≤ specMaxOffset σ props s index then scrollOffset
        else if scrollOffset - specMinOffset σ props index
            < specMaxOffset σ props s index - scrollOffset
          then specMinOffset σ props index else specMaxOffset σ props s index) = _
      rw [if_neg hin, if_neg hcl]

theorem getOffsetForAlignment_auto_spec_witness :
    ∃ s' v, getOffsetForIndexAndAlignment propsA 4 .auto 30 (initInstanceProps 50)
        = some (v, s')
      ∧ (specMinOffset (fun _ => 25) propsA 4 ≤ 30
          ∧ (30 : Int) ≤ specMaxOffset (fun _ => 25) propsA (initInstanceProps 50) 4 → v = 30)
      ∧ (¬ (specMinOffset (fun _ => 25) propsA 4 ≤ 30
          ∧ (30 : Int) ≤ specMaxOffset (fun _ => 25) propsA (initInstanceProps 50) 4) →
          v = if (30 : Int) - specMinOffset (fun _ => 25) propsA 4
              < specMaxOffset (fun _ => 25) propsA (initInstanceProps 50) 4 - 30
            then specMinOffset (fun _ => 25) propsA 4
            else specMaxOffset (fun _ => 25) propsA (initInstanceProps 50) 4)
      ∧ ((30 : Int) - specMinOffset (fun _ => 25) propsA 4
          = specMaxOffset (fun _ => 25) propsA (initInstanceProps 50) 4 - 30 →
          ¬ (specMinOffset (fun _ => 25) propsA 4 ≤ 30
            ∧ (30 : Int) ≤ specMaxOffset (fun _ => 25) propsA (initInstanceProps 50) 4) →
          v = specMaxOffset (fun _ => 25) propsA (initInstanceProps 50) 4)
      ∧ (specMinOffset (fun _ => 25) propsA 4
            ≤ specMaxOffset (fun _ => 25) propsA (initInstanceProps 50) 4 →
          (30 : Int) < specMinOffset (fun _ => 25) propsA 4
          → v = specMinOffset (fun _ => 25) propsA 4)
      ∧ (specMinOffset (fun _ => 25) propsA 4
            ≤ specMaxOffset (fun _ => 25) propsA (initInstanceProps 50) 4 →
          specMaxOffset (fun _ => 25) propsA (initInstanceProps 50) 4 < 30 →
          v = specMaxOffset (fun _ => 25) propsA (initInstanceProps 50) 4) :=
  getOffsetForAlignment_auto_spec (fun _ => 25) propsA
    (coherent_init (fun _ => 25) propsA 50 (fun _ => rfl)) (by decide) 30

/-- Claim C5 counterexample: one 300-pixel item in a 100-pixel viewport, index 0,
`align = auto`, `scrollOffset = 100`.  Here `minOffset = 200` and `maxOffset = 0`,
`scrollOffset` is outside `[200, 0]`, the two distances tie
(`100 − 200 = 0 − 100 = −100`), and the code returns `maxOffset = 0` — not
`minOffset = 200` as a tie broken toward `minOffset` would demand. -/
theorem getOffsetForAlignment_auto_tie_counterexample :
    (getOffsetForIndexAndAlignment propsC 0 .auto 100 (initInstanceProps 50)).map
        Prod.fst = some 0
    ∧ specMinOffset (fun _ => 300) propsC 0 = 200
    ∧ specMaxOffset (fun _ => 300) propsC (initInstanceProps 50) 0 = 0
    ∧ ((100 : Int) - 200 = 0 - 100)
    ∧ ¬ ((200 : Int) ≤ 100 ∧ (100 : Int) ≤ 0)
    ∧ (0 : Int) ≠ 200 := by
  exact ⟨rfl, by decide, by decide, by decide, by decide, by decide⟩

/-- Claim C6: for every `startIndex` in range, `getStopIndexForStartIndex` returns the
smallest `j ≥ startIndex` whose item end `offset(j) + size(j)` reaches
`scrollOffset + viewportSize`, or `itemCount − 1` when no in-range item does. -/
theorem getStopIndex_is_smallest (σ : Nat → Int) (props : Props) {s : InstanceProps}
    (hc : Coherent σ props s) {startIndex : Int} (h0 : 0 ≤ startIndex)
    (hub : startIndex ≤ (props.itemCount : Int) - 1) (scrollOffset : Int) :
    ∃ j s', getStopIndexForStartIndex props startIndex scrollOffset s = some (j, s')
      ∧ startIndex ≤ j ∧ j ≤ (props.itemCount : Int) - 1
      ∧ ((∃ k : Int, startIndex ≤ k ∧ k ≤ (props.itemCount : Int) - 1
            ∧ scrollOffset + axisSize props ≤ layoutOffset σ (k + 1).toNat) →
          scrollOffset + axisSize props ≤ layoutOffset σ (j + 1).toNat
          ∧ ∀ k : Int, startIndex ≤ k →
              scrollOffset + axisSize props ≤ layoutOffset σ (k + 1).toNat → j ≤ k)
      ∧ ((∀ k : Int, startIndex ≤ k → k ≤ (props.itemCount : Int) - 1 →
            layoutOffset σ (k + 1).toNat < scrollOffset + axisSize props) →
          j = (props.itemCount : Int) - 1) := by
  obtain ⟨j, s', hrun, hc', hest', hj1, hj2, hj3, hj4⟩ :=
    getStopIndexForStartIndex_correct σ props hc h0 hub scrollOffset
  refine ⟨j, s', hrun, hj1, hj2, ?_, ?_⟩
  · rintro ⟨k, hk1, hk2, hk3⟩
    have hend : scrollOffset + axisSize props ≤ layoutOffset σ (j + 1).toNat := by
      rcases hj3 with h | h
      · exact h
      · have hkj : k ≤ j := by omega
        rcases eq_or_lt_of_le hkj with he | hl
        · rw [he] at hk3
          exact hk3
        · have := hj4 k hk1 hl
          omega
    refine ⟨hend, fun k' hk'1 hk'3 => ?_⟩
    by_contra hcon
    push_neg at hcon
    have := hj4 k' hk'1 hcon
    omega
  · intro hall
    rcases hj3 with h | h
    · have := hall j hj1 hj2
      omega
    · exact h

theorem getStopIndex_is_smallest_witness :
    ∃ j s', getStopIndexForStartIndex propsA 0 0 (initInstanceProps 50) = some (j, s')
      ∧ (0 : Int) ≤ j ∧ j ≤ (propsA.itemCount : Int) - 1
      ∧ ((∃ k : Int, 0 ≤ k ∧ k ≤ (propsA.itemCount : Int) - 1
            ∧ (0 : Int) + axisSize propsA ≤ layoutOffset (fun _ => 25) (k + 1).toNat) →
          (0 : Int) + axisSize propsA ≤ layoutOffset (fun _ => 25) (j + 1).toNat
          ∧ ∀ k : Int, 0 ≤ k →
              (0 : Int) + axisSize propsA ≤ layoutOffset (fun _ => 25) (k + 1).toNat → j ≤ k)
      ∧ ((∀ k : Int, 0 ≤ k → k ≤ (propsA.itemCount : Int) - 1 →
            layoutOffset (fun _ => 25) (k + 1).toNat < (0 : Int) + axisSize propsA) →
          j = (propsA.itemCount : Int) - 1) :=
  getStopIndex_is_smallest (fun _ => 25) propsA
    (coherent_init (fun _ => 25) propsA 50 (fun _ => rfl)) (by decide) (by decide) 0

/-- Claim C7: `resetAfterIndex(k)` sets `lastMeasuredIndex` to
`min(previous lastMeasuredIndex, k − 1)` — it never increases the watermark — and
leaves every stored `{offset, size}` entry of the metadata map unchanged. -/
theorem resetAfterIndex_spec (k : Int) (s : InstanceProps) :
    (resetAfterIndex k s).lastMeasuredIndex = min s.lastMeasuredIndex (k - 1)
    ∧ (resetAfterIndex k s).lastMeasuredIndex ≤ s.lastMeasuredIndex
    ∧ (∀ j : Int, (resetAfterIndex k s).itemMetadataMap j = s.itemMetadataMap j)
    ∧ (resetAfterIndex k s).estimatedItemSize = s.estimatedItemSize := by
  refine ⟨rfl, ?_, fun j => rfl, rfl⟩
  unfold resetAfterIndex
  dsimp only
  omega

/-- Claim C8 (amended): in every coherent state with positive sizes,
`findNearestItem(offset)` returns 0 whenever `offset ≤ 0`; but when nothing has been
measured yet (`lastMeasuredIndex = -1`) and `offset > 0` it does not return 0 (nor any
index): the exponential search is entered at index −1 and fails on the missing map
entry. -/
theorem findNearestItem_zero_cases :
    (∀ (σ : Nat → Int) (props : Props) (s : InstanceProps) (offset : Int),
      (∀ n, 0 < σ n) → Coherent σ props s → offset ≤ 0 →
      ∃ s', findNearestItem props s offset = some (0, s'))
    ∧ (∀ (props : Props) (est offset : Int), 0 < offset →
        findNearestItem props (initInstanceProps est) offset = none) := by
  constructor
  · intro σ props s offset hσ hc h0
    exact findNearestItem_nonpos σ props hσ hc h0
  · intro props est offset h0
    have hprobe : exponentialProbe props offset (-1) 1 one_pos (initInstanceProps est)
        = none := by
      unfold exponentialProbe
      have hcount : (-1 : Int) < (props.itemCount : Int) := by
        have : (0 : Int) ≤ (props.itemCount : Int) := by positivity
        omega
      rw [if_pos hcount]
      rfl
    have hexp : findNearestItemExponentialSearch props (initInstanceProps est) (-1)
        offset = none := by
      unfold findNearestItemExponentialSearch
      rw [hprobe]
    unfold findNearestItem
    rw [if_neg (by norm_num [initInstanceProps])]
    simp only
    rw [if_neg (by omega)]
    exact hexp

theorem findNearestItem_zero_cases_witness :
    (∃ s', findNearestItem propsA (initInstanceProps 50) (-3) = some (0, s'))
    ∧ findNearestItem propsA (initInstanceProps 50) 7 = none :=
  ⟨findNearestItem_zero_cases.1 (fun _ => 25) propsA (initInstanceProps 50) (-3)
      (fun _ => by norm_num)
      (coherent_init (fun _ => 25) propsA 50 (fun _ => rfl)) (by decide),
   findNearestItem_zero_cases.2 propsA 50 7 (by decide)⟩

/-- Claim C8 counterexample: in a fresh instance (`lastMeasuredIndex = -1`, nothing
measured) with 10 items of size 25, `findNearestItem(5)` does not return 0 (it
returns no index at all: the missing entry at index −1 is dereferenced), refuting
"returns 0 whenever nothing has been measured yet, for every offset". -/
theorem findNearestItem_unmeasured_not_zero :
    (initInstanceProps 50).lastMeasuredIndex = -1
    ∧ findNearestItem propsA (initInstanceProps 50) 5 = none
    ∧ (findNearestItem propsA (initInstanceProps 50) 5).map Prod.fst ≠ some 0 := by
  have hnone : findNearestItem propsA (initInstanceProps 50) 5 = none := by
    have hprobe : exponentialProbe propsA 5 (-1) 1 one_pos (initInstanceProps 50)
        = none := by
      unfold exponentialProbe
      rw [if_pos (by decide)]
      rfl
    have hexp : findNearestItemExponentialSearch propsA (initInstanceProps 50) (-1) 5
        = none := by
      unfold findNearestItemExponentialSearch
      rw [hprobe]
    unfold findNearestItem
    rw [if_neg (by decide)]
    simp only
    rw [if_neg (by decide)]
    exact hexp
  exact ⟨rfl, hnone, by rw [hnone]; decide⟩

/-- Claim C9: a cached read (`index ≤ lastMeasuredIndex`) does not invoke the size
getter — its result is identical under any two props, hence under any two `sizeOf`
functions — does not change the state, and repeated calls return the same value. -/
theorem getItemMetadata_cached_pure (props propsOther : Props) (s : InstanceProps)
    (index : Int) (h : index ≤ s.lastMeasuredIndex) :
    getItemMetadata props index s = getItemMetadata propsOther index s
    ∧ (∀ m s', getItemMetadata props index s = some (m, s') →
        s' = s ∧ getItemMetadata props index s' = some (m, s')) := by
  obtain ⟨hsame, hstate⟩ := getItemMetadata_cached props propsOther h
  refine ⟨hsame, fun m s' hms => ?_⟩
  have hs := hstate m s' hms
  exact ⟨hs, hs ▸ hms⟩

theorem getItemMetadata_cached_pure_witness :
    getItemMetadata propsA 1 (measureStep propsA 2 (initInstanceProps 50))
      = getItemMetadata propsAlt 1 (measureStep propsA 2 (initInstanceProps 50))
    ∧ (∀ m s', getItemMetadata propsA 1 (measureStep propsA 2 (initInstanceProps 50))
        = some (m, s') →
        s' = measureStep propsA 2 (initInstanceProps 50)
        ∧ getItemMetadata propsA 1 s' = some (m, s')) :=
  getItemMetadata_cached_pure propsA propsAlt
    (measureStep propsA 2 (initInstanceProps 50)) 1 (by decide)

/-- Claim C10 (amended): `getItemSize` reads the metadata map directly, with no
measurement: for every coherent state it returns the cached size of each measured
index; in states reached by measuring alone (no invalidation) every index beyond the
watermark hits a missing entry and yields no size — unlike `getItemOffset`, which
measures on demand and is defined for every nonnegative index.  (After
`resetAfterIndex`, stale entries beyond the watermark may still yield a — stale —
size; see the counterexample.) -/
theorem getItemSize_requires_measurement :
    (∀ (σ : Nat → Int) (props : Props) (s : InstanceProps) (i : Nat),
      Coherent σ props s → (i : Int) ≤ s.lastMeasuredIndex →
      getItemSize i s = some (σ i))
    ∧ (∀ s : InstanceProps, MeasureReachable s →
        ∀ j : Int, s.lastMeasuredIndex < j → getItemSize j s = none)
    ∧ (∀ (σ : Nat → Int) (props : Props) (s : InstanceProps) (index : Int),
        Coherent σ props s → 0 ≤ index →
        ∃ s', getItemOffset props index s
          = some (layoutOffset σ index.toNat, s')) := by
  refine ⟨?_, ?_, ?_⟩
  · intro σ props s i hc hi
    unfold getItemSize
    rw [hc.stored i hi]
    rfl
  · intro s hs j hj
    obtain ⟨-, hnone⟩ := measureReachable_domain hs
    unfold getItemSize
    rw [hnone j (Or.inl hj)]
    rfl
  · intro σ props s index hc hidx
    obtain ⟨s', hgim, -, -, -, -⟩ := getItemMetadata_coherent σ props hc hidx
    refine ⟨s', ?_⟩
    unfold getItemOffset
    rw [hgim]
    rfl

theorem getItemSize_requires_measurement_witness :
    getItemSize (1 : Nat) (measureStep propsA 2 (initInstanceProps 50))
      = some ((fun _ => (25 : Int)) 1)
    ∧ getItemSize 7 (measureStep propsA 2 (initInstanceProps 50)) = none
    ∧ (∃ s', getItemOffset propsA 3 (initInstanceProps 50)
        = some (layoutOffset (fun _ => 25) (3 : Int).toNat, s')) :=
  ⟨getItemSize_requires_measurement.1 (fun _ => 25) propsA
      (measureStep propsA 2 (initInstanceProps 50)) 1 coherent_measured_A (by decide),
   getItemSize_requires_measurement.2.1 (measureStep propsA 2 (initInstanceProps 50))
      (MeasureReachable.measure propsA 2 (by decide) (MeasureReachable.init 50))
      7 (by decide),
   getItemSize_requires_measurement.2.2 (fun _ => 25) propsA (initInstanceProps 50) 3
      (coherent_init (fun _ => 25) propsA 50 (fun _ => rfl)) (by decide)⟩

/-- Claim C10 counterexample: measure items 0–5 (all size 25), then `resetAfterIndex(3)`
— the watermark drops to 2, but the stale entry at index 4 > 2 remains, so
`getItemSize(4)` still yields the (stale) size 25 rather than hitting a missing
entry. -/
theorem getItemSize_stale_after_reset :
    (resetAfterIndex 3 (measureStep propsA 5 (initInstanceProps 50))).lastMeasuredIndex
      = 2
    ∧ getItemSize 4 (resetAfterIndex 3 (measureStep propsA 5 (initInstanceProps 50)))
        = some 25 :=
  ⟨by decide, by decide⟩

end ReactWindow
